import Mathlib

/-!
Verification of the emoji-banner-generator core against its specification.

The development shallowly embeds the two core modules:

* the bitmap module (`src/unnamed/part_001`): escape decoding, newline
  normalization, vertical stacking, control-character sanitization,
  truncation, line rasterization, merging and trimming.  JS strings are
  modelled at this level as lists of UTF-16 code units (`List Nat`),
  because the module mixes code-unit operations (`slice`, indexing,
  regex replacement) with code-point operations (`Array.from`); lone
  surrogates are representable, as in JS.

* the renderer module (`src/src/renderer.ts`): display-width model,
  cell fitting, the seeded linear congruential generator, emoji
  selection and bitmap rendering.  Renderer strings are modelled as
  lists of Unicode scalar values (`List Char`); grapheme segmentation is
  modelled as code-point iteration, which is the module's own documented
  fallback when `Intl.Segmenter` is unavailable.

JS `number` arithmetic on generator states is modelled as exact integer
arithmetic with an explicit `% 2 ^ 31` for the `& 0x7fffffff` masking, and
the two floating-point divisions/multiplications of the generator are
modelled as exact rational arithmetic.  `Math.sin`/`Math.cos`, used only
by the GitHub theme's intensity function, are consumed as an opaque pure
function parameter (`TrigModel`).
-/

namespace EmojiBanner

/-- A bitmap: rows of boolean cells, `true` = foreground (`src/src/types.ts`). -/
abbrev Bitmap := List (List Bool)

/-- A JS string at the bitmap-module level: a list of UTF-16 code units. -/
abbrev Units := List Nat

/-- `MAX_TEXT_LENGTH` from `src/unnamed/part_001` line 14. -/
def MAX_TEXT_LENGTH : Nat := 100

/-- Code-point iteration of a UTF-16 code-unit sequence, as JS
`Array.from(string)` / `for..of` do: a high surrogate followed by a low
surrogate yields one combined code point, any other unit stands alone. -/
def codePoints : Units → List Nat
  | [] => []
  | [u] => [u]
  | h :: l :: rest =>
    if 0xD800 ≤ h && h ≤ 0xDBFF && 0xDC00 ≤ l && l ≤ 0xDFFF then
      (0x10000 + (h - 0xD800) * 0x400 + (l - 0xDC00)) :: codePoints rest
    else
      h :: codePoints (l :: rest)

/-- The UTF-16 encoding of one code point (used to model joining
code-point strings back into a JS string). -/
def cpUnits (cp : Nat) : Units :=
  if 0x10000 ≤ cp then
    [0xD800 + (cp - 0x10000) / 0x400, 0xDC00 + (cp - 0x10000) % 0x400]
  else
    [cp]

/-- `decodeEscapes` (`src/unnamed/part_001` lines 22-56): the index loop
is rendered as structural recursion; each iteration consumes either one
unit (a non-backslash, or a trailing backslash) or two (a backslash and
its follower).  92 = backslash, 110 = letter n, 10 = line feed. -/
def decodeEscapes : Units → Units
  | [] => []
  | 92 :: 110 :: rest => 10 :: decodeEscapes rest
  | 92 :: 92 :: rest => 92 :: decodeEscapes rest
  | 92 :: next :: rest => 92 :: next :: decodeEscapes rest
  | [92] => [92]
  | u :: rest => u :: decodeEscapes rest

/-- The two chained replacements `.replace(/\r\n/g, '\n').replace(/\r/g, '\n')`
of `normalizeTextInput`, fused into one left-to-right pass: a CR-LF pair
becomes one LF, a lone CR becomes LF.  13 = CR, 10 = LF. -/
def normalizeNewlines : Units → Units
  | [] => []
  | 13 :: 10 :: rest => 10 :: normalizeNewlines rest
  | 13 :: rest => 10 :: normalizeNewlines rest
  | u :: rest => u :: normalizeNewlines rest

/-- The body of `map` in the vertical branch of `normalizeTextInput`:
an empty line stays empty, otherwise `Array.from(line).join('\n')`. -/
def verticalizeLine (line : Units) : Units :=
  if line.isEmpty then [] else List.intercalate [10] ((codePoints line).map cpUnits)

/-- `normalizeTextInput` (`src/unnamed/part_001` lines 64-80). -/
def normalizeTextInput (text : Units) (vertical : Bool) : Units :=
  let normalizedNewlines := normalizeNewlines (decodeEscapes text)
  if !vertical then
    normalizedNewlines
  else
    List.intercalate [10, 10] ((normalizedNewlines.splitOn 10).map verticalizeLine)

/-- The control characters stripped by the sanitization regex
`/[\x00-\x09\x0B-\x1F\x7F]/g` of `textToBitmap`. -/
def strippedControl (u : Nat) : Bool :=
  u ≤ 9 || (11 ≤ u && u ≤ 31) || u == 127

/-- The sanitized text of `textToBitmap` (line 202): normalization
followed by removal of control characters other than the line feed. -/
def sanitizedText (text : Units) (vertical : Bool) : Units :=
  (normalizeTextInput text vertical).filter (fun u => !strippedControl u)

/-- The truncated text of `textToBitmap` (line 209):
`sanitizedText.slice(0, MAX_TEXT_LENGTH)` — a slice of CODE UNITS. -/
def truncatedText (text : Units) (vertical : Bool) : Units :=
  (sanitizedText text vertical).take MAX_TEXT_LENGTH

/-- A pixel font as consumed by the bitmap module: an opaque
character-pattern table plus metrics (`PixelFont` of `src/unnamed/part_001`;
the font data itself lives in `fonts.js`, outside the core).  Patterns are
keyed by code point and their rows are strings of marker units. -/
structure PixelFont where
  map : Nat → Option (List (List Nat))
  height : Nat
  letterSpacing : Nat
  lineSpacing : Nat

/-- ASCII-range model of `String.prototype.toUpperCase` on one code point
(the full Unicode case table is irrelevant to every claim here). -/
def toUpperCp (cp : Nat) : Nat :=
  if 97 ≤ cp && cp ≤ 122 then cp - 32 else cp

/-- `getCharacterPattern` (`src/unnamed/part_001` lines 110-121): exact
match, then uppercase match, then `'?'` (63), then space (32), then an
empty pattern. -/
def getCharacterPattern (char : Nat) (font : PixelFont) : List (List Nat) :=
  match font.map char with
  | some p => p
  | none =>
    match font.map (toUpperCp char) with
    | some p => p
    | none =>
      match font.map 63 with
      | some p => p
      | none => (font.map 32).getD []

/-- The cells one enumerated character `ci` contributes to row `rowIndex`
inside `renderLineToBitmap`'s loops: the character's pattern cells over
its column width (the maximal pattern-row length; a missing pattern row
is all background, a missing cell is not the `'#'` marker, 35), followed
by `letterSpacing` background cells for every character but the last of
the `total` characters. -/
def charSegment (font : PixelFont) (total rowIndex : Nat) (ci : Nat × Nat) : List Bool :=
  let pattern := getCharacterPattern ci.2 font
  let width := pattern.foldl (fun mx row => max mx row.length) 0
  (List.range width).map
      (fun colIndex => ((pattern.get? rowIndex).getD []).get? colIndex == some 35)
    ++ (if ci.1 < total - 1 then List.replicate font.letterSpacing false else [])

/-- `renderLineToBitmap` (`src/unnamed/part_001` lines 126-153).  The
source pushes, for every character and then every row index, the
character's cells followed by the inter-character spacing; row
`rowIndex` of the result is therefore the concatenation over the
enumerated characters of their `charSegment`s. -/
def renderLineToBitmap (line : Units) (font : PixelFont) : Bitmap :=
  let characters := codePoints line
  if characters.isEmpty then
    List.replicate font.height []
  else
    (List.range font.height).map (fun rowIndex =>
      (characters.enum.map (charSegment font characters.length rowIndex)).flatten)

/-- A row every cell of which is background: `row.every((cell) => !cell)`. -/
def rowAllBackground (row : List Bool) : Bool := row.all (fun cell => !cell)

/-- `trimBitmap` (`src/unnamed/part_001` lines 85-105).  The forward
while loop computes the first non-background row, the backward loop the
last one; slicing between them is dropping the background prefix and the
background suffix.  If every row is background (`startRow > endRow`) the
result is the `[[]]` sentinel; an empty bitmap is returned unchanged. -/
def trimBitmap (bitmap : Bitmap) : Bitmap :=
  if bitmap.isEmpty then bitmap
  else
    let core := (bitmap.dropWhile rowAllBackground).rdropWhile rowAllBackground
    if core.isEmpty then [[]] else core

/-- `mergeLines` (`src/unnamed/part_001` lines 158-184): pad every row of
every line bitmap on the right to the maximal first-row width, insert
`lineSpacing` background rows between consecutive line bitmaps, then trim. -/
def mergeLines (lineBitmaps : List Bitmap) (lineSpacing : Nat) : Bitmap :=
  if lineBitmaps.isEmpty then [[]]
  else
    let width := (lineBitmaps.map (fun line => ((line.head?).getD []).length)).foldr max 0
    let merged :=
      (lineBitmaps.enum.map (fun il =>
        il.2.map (fun row => row ++ List.replicate (width - row.length) false)
          ++ (if il.1 < lineBitmaps.length - 1 && 0 < lineSpacing then
                List.replicate lineSpacing (List.replicate width false)
              else []))).flatten
    trimBitmap merged

/-- Decidable equality of `Except` results, so that concrete pipeline
runs can be checked by `decide`. -/
instance {e a : Type} [DecidableEq e] [DecidableEq a] : DecidableEq (Except e a) := fun x y =>
  match x, y with
  | .error u, .error v =>
    if h : u = v then .isTrue (by rw [h]) else .isFalse (fun hh => h (Except.error.inj hh))
  | .error _, .ok _ => .isFalse (fun hh => Except.noConfusion hh)
  | .ok _, .error _ => .isFalse (fun hh => Except.noConfusion hh)
  | .ok u, .ok v =>
    if h : u = v then .isTrue (by rw [h]) else .isFalse (fun hh => h (Except.ok.inj hh))

/-- The two failure kinds of `textToBitmap` (both are the spec's
EmptyInput class): raw text missing/empty, or empty after sanitization. -/
inductive BitmapInputError where
  | required
  | emptyAfterSanitization
  deriving DecidableEq, Repr

/-- The part of `textToBitmap` below the sanitization check: truncate,
split into lines, rasterize each line, merge. -/
def fromSanitized (font : PixelFont) (sanitized : Units) : Except BitmapInputError Bitmap :=
  if sanitized.isEmpty then .error .emptyAfterSanitization
  else
    let truncated := sanitized.take MAX_TEXT_LENGTH
    let lines := truncated.splitOn 10
    .ok (mergeLines (lines.map (fun line => renderLineToBitmap line font)) font.lineSpacing)

/-- `textToBitmap` (`src/unnamed/part_001` lines 189-216).  The font-name
resolution (`getFont`, from `fonts.js`, outside `src/`) is modelled away:
per spec §6 the core consumes the registry's resolved `PixelFont`, so the
function takes the font value itself.  Thrown `Error`s are modelled as
`Except.error`. -/
def textToBitmap (text : Units) (font : PixelFont) (vertical : Bool) :
    Except BitmapInputError Bitmap :=
  if text.isEmpty then .error .required
  else fromSanitized font (sanitizedText text vertical)

/-- `getBitmapDimensions` (`src/unnamed/part_001` lines 228-239). -/
def getBitmapDimensions (bitmap : Bitmap) : Nat × Nat :=
  if bitmap.isEmpty then (0, 0) else (((bitmap.head?).getD []).length, bitmap.length)

/-! ## Renderer module (`src/src/renderer.ts`)

Strings are lists of Unicode scalar values; grapheme iteration is
modelled as code-point iteration (the module's documented fallback). -/

/-- A renderer-level string: a list of Unicode scalar values. -/
abbrev Str := List Char

/-- The single-character class of `EMOJI_REGEX` (`renderer.ts` line 11). -/
def isEmojiRegexChar (c : Char) : Bool :=
  (0x1F300 ≤ c.toNat && c.toNat ≤ 0x1FAFF) ||
  (0x1F600 ≤ c.toNat && c.toNat ≤ 0x1F64F) ||
  (0x1F680 ≤ c.toNat && c.toNat ≤ 0x1F6FF) ||
  (0x2600 ≤ c.toNat && c.toNat ≤ 0x26FF) ||
  (0x2700 ≤ c.toNat && c.toNat ≤ 0x27BF) ||
  c.toNat == 0xFE0F

/-- The single-character class of `WIDE_CHAR_REGEX` (`renderer.ts` line 13). -/
def isWideCharRegexChar (c : Char) : Bool :=
  c.toNat == 0x3000 ||
  (0x3001 ≤ c.toNat && c.toNat ≤ 0x303F) ||
  (0x3040 ≤ c.toNat && c.toNat ≤ 0x30FF) ||
  (0x3400 ≤ c.toNat && c.toNat ≤ 0x4DBF) ||
  (0x4E00 ≤ c.toNat && c.toNat ≤ 0x9FFF) ||
  (0xF900 ≤ c.toNat && c.toNat ≤ 0xFAFF)

/-- Model of the Unicode `Extended_Pictographic` property used by
`EXTENDED_PICTO_REGEX` (`renderer.ts` line 12): the property's principal
code-point ranges.  No claim below depends on its exact extent, only on
ASCII not being pictographic and the usual emoji blocks being so. -/
def isExtendedPictographic (c : Char) : Bool :=
  let n := c.toNat
  n == 0xA9 || n == 0xAE || n == 0x203C || n == 0x2049 || n == 0x2122 ||
  n == 0x2139 || (0x2194 ≤ n && n ≤ 0x2199) || (0x21A9 ≤ n && n ≤ 0x21AA) ||
  (0x231A ≤ n && n ≤ 0x231B) || n == 0x2328 || n == 0x23CF ||
  (0x23E9 ≤ n && n ≤ 0x23F3) || (0x23F8 ≤ n && n ≤ 0x23FA) || n == 0x24C2 ||
  (0x25AA ≤ n && n ≤ 0x25AB) || n == 0x25B6 || n == 0x25C0 ||
  (0x25FB ≤ n && n ≤ 0x25FE) || (0x2600 ≤ n && n ≤ 0x27BF) ||
  (0x2934 ≤ n && n ≤ 0x2935) || (0x2B05 ≤ n && n ≤ 0x2B07) ||
  (0x2B1B ≤ n && n ≤ 0x2B1C) || n == 0x2B50 || n == 0x2B55 ||
  n == 0x3030 || n == 0x303D || n == 0x3297 || n == 0x3299 ||
  (0x1F000 ≤ n && n ≤ 0x1F0FF) || (0x1F10D ≤ n && n ≤ 0x1F10F) ||
  n == 0x1F12F || (0x1F16C ≤ n && n ≤ 0x1F171) ||
  (0x1F17E ≤ n && n ≤ 0x1F17F) || n == 0x1F18E ||
  (0x1F191 ≤ n && n ≤ 0x1F19A) || (0x1F1AD ≤ n && n ≤ 0x1F1E5) ||
  (0x1F201 ≤ n && n ≤ 0x1F20F) || n == 0x1F21A || n == 0x1F22F ||
  (0x1F232 ≤ n && n ≤ 0x1F23A) || (0x1F23C ≤ n && n ≤ 0x1F23F) ||
  (0x1F249 ≤ n && n ≤ 0x1F3FA) || (0x1F400 ≤ n && n ≤ 0x1F53D) ||
  (0x1F546 ≤ n && n ≤ 0x1F64F) || (0x1F680 ≤ n && n ≤ 0x1F6FF) ||
  (0x1F774 ≤ n && n ≤ 0x1F77F) || (0x1F7D5 ≤ n && n ≤ 0x1F7FF) ||
  (0x1F80C ≤ n && n ≤ 0x1F80F) || (0x1F848 ≤ n && n ≤ 0x1F84F) ||
  (0x1F85A ≤ n && n ≤ 0x1F85F) || (0x1F888 ≤ n && n ≤ 0x1F88F) ||
  (0x1F8AE ≤ n && n ≤ 0x1F8FF) || (0x1F90C ≤ n && n ≤ 0x1F93A) ||
  (0x1F93C ≤ n && n ≤ 0x1F945) || (0x1F947 ≤ n && n ≤ 0x1FAFF) ||
  (0x1FC00 ≤ n && n ≤ 0x1FFFD)

/-- The JS whitespace class (`\s`, also the set removed by
`String.prototype.trim`). -/
def isJsWhitespace (c : Char) : Bool :=
  let n := c.toNat
  (0x9 ≤ n && n ≤ 0xD) || n == 0x20 || n == 0xA0 || n == 0x1680 ||
  (0x2000 ≤ n && n ≤ 0x200A) || n == 0x2028 || n == 0x2029 ||
  n == 0x202F || n == 0x205F || n == 0x3000 || n == 0xFEFF

/-- `value.trim()`: remove whitespace from both ends. -/
def trimStr (s : Str) : Str :=
  (s.dropWhile isJsWhitespace).rdropWhile isJsWhitespace

/-- One character of the alias class `[a-zA-Z0-9_-]`. -/
def isAliasCoreChar (c : Char) : Bool :=
  (97 ≤ c.toNat && c.toNat ≤ 122) || (65 ≤ c.toNat && c.toNat ≤ 90) ||
  (48 ≤ c.toNat && c.toNat ≤ 57) || c == '_' || c == '-'

/-- The anchored regex `/^:?[a-zA-Z0-9_-]{1,64}:?$/`: an optional leading
colon, 1 to 64 core characters and an optional trailing colon. -/
def aliasShape (t : Str) : Bool :=
  let t1 := if t.head? == some ':' then t.tail else t
  let t2 := if t1.getLast? == some ':' then t1.dropLast else t1
  !t2.isEmpty && t2.length ≤ 64 && t2.all isAliasCoreChar

/-- `isLikelyCustomEmoji` (`renderer.ts` lines 19-27). -/
def isLikelyCustomEmoji (value : Str) : Bool :=
  let trimmed := trimStr value
  if trimmed.isEmpty then false
  else if trimmed.any (fun c =>
      isExtendedPictographic c || isEmojiRegexChar c || isWideCharRegexChar c) then false
  else aliasShape trimmed && !(trimmed.any isJsWhitespace)

/-- The display width of one grapheme in `getDisplayWidth`'s loop:
2 for the ideographic space and for pictographic/emoji/wide characters,
1 otherwise. -/
def charDisplayWidth (c : Char) : Nat :=
  if c.toNat == 0x3000 then 2
  else if isExtendedPictographic c || isEmojiRegexChar c || isWideCharRegexChar c then 2
  else 1

/-- The per-grapheme sum that `getDisplayWidth`'s loop computes (the
total display width of a string, without the custom-alias override). -/
def graphemeWidthSum (s : Str) : Nat :=
  (s.map charDisplayWidth).sum

/-- `getDisplayWidth` (`renderer.ts` lines 76-91): a custom-alias token
counts as one double-width cell, any other string is the sum of its
graphemes' widths. -/
def getDisplayWidth (s : Str) : Nat :=
  if isLikelyCustomEmoji s then 2 else graphemeWidthSum s

/-- `padToWidth` (`renderer.ts` lines 96-106): append spaces until the
tracked width reaches the target. -/
def padToWidth (s : Str) (targetWidth : Nat) : Str :=
  s ++ List.replicate (targetWidth - getDisplayWidth s) ' '

/-- `fitToWidth` (`renderer.ts` lines 111-119). -/
def fitToWidth (s : Str) (targetWidth : Nat) : Str :=
  let current := getDisplayWidth s
  if current == targetWidth then s
  else if current < targetWidth then padToWidth s targetWidth
  else padToWidth [] targetWidth

/-- One update of `SeededRandom` (`renderer.ts` line 64):
`(seed * 1103515245 + 12345) & 0x7fffffff`, i.e. the low 31 bits.  JS
`number` products above `2 ^ 53` round; this model keeps them exact. -/
def lcgNext (seed : Nat) : Nat :=
  (seed * 1103515245 + 12345) % 2147483648

/-- The value `next()` returns: the new seed divided by `0x7fffffff`
(note: the mask itself, `2 ^ 31 - 1`, not `2 ^ 31`). -/
def nextValue (newSeed : Nat) : ℚ :=
  (newSeed : ℚ) / 2147483647

/-- `nextInt(max)` (`renderer.ts` lines 68-70): advance the seed and take
`Math.floor(next() * max)`; the floor of the exact rational is
`newSeed * max / 0x7fffffff` in integer division.  Returns the drawn
index and the new seed. -/
def nextInt (seed max : Nat) : Nat × Nat :=
  let newSeed := lcgNext seed
  (newSeed * max / 2147483647, newSeed)

/-- `EmojiMode` (`src/src/types.ts`). -/
inductive EmojiMode where
  | random
  | row
  | column
  | rowGradient
  | columnGradient
  deriving DecidableEq, Repr

/-- `Theme` (`src/src/types.ts`). -/
inductive Theme where
  | defaultTheme
  | github
  deriving DecidableEq, Repr

/-- `RenderConfig` (`src/src/types.ts`; the optional border emoji is not
consumed by `renderBitmap` and is omitted). -/
structure RenderConfig where
  foregroundEmojis : List Str
  backgroundEmoji : Str
  mode : EmojiMode
  theme : Theme

/-- Modelled from the spec: `getBackgroundEmoji` of `emoji.js` is not
under `src/`; the CLI help and `types.ts` state the default background
is a space. -/
def getBackgroundEmoji : Str := [' ']

/-- Modelled from the spec: `getThemeEmojis('github')` of `themes.js` is
not under `src/`; spec §4.5 describes a palette of 5 discrete intensity
levels, level 0 reserved for background and 1-4 used for foreground. -/
def getThemeEmojis : List Str := [['⬜'], ['🌱'], ['🌿'], ['🍀'], ['🌳']]

/-- Round half to even: the integer nearest to `x`, ties to the even
neighbour (the rounding rule of IEEE binary64). -/
def roundHalfEven (x : ℚ) : ℤ :=
  if Int.fract x < 1 / 2 then ⌊x⌋
  else if 1 / 2 < Int.fract x then ⌊x⌋ + 1
  else if ⌊x⌋ % 2 = 0 then ⌊x⌋ else ⌊x⌋ + 1

/-- The binary64 value nearest to a nonnegative rational: the
significand is rounded to 53 bits, half to even.  The exponent is kept
unbounded, so the model agrees with IEEE binary64 exactly on magnitudes
inside the normal range — which covers every value the gradient
computation can produce from reachable loop counters and array
lengths. -/
def fl (q : ℚ) : ℚ :=
  if q ≤ 0 then 0
  else (roundHalfEven (q / 2 ^ (Int.log 2 q - 52)) : ℚ) * 2 ^ (Int.log 2 q - 52)

/-- IEEE binary64 division of exactly-represented operands: the
correctly rounded exact quotient. -/
def jsDiv (a b : ℚ) : ℚ := fl (a / b)

/-- IEEE binary64 multiplication of exactly-represented operands: the
correctly rounded exact product. -/
def jsMul (a b : ℚ) : ℚ := fl (a * b)

/-- The index of the two gradient branches of `selectEmoji`
(`renderer.ts` lines 147-159): `Math.floor(rowProgress * (n - 1))` with
`rowProgress = pos / (total - 1)` when `total > 1` and 0 otherwise, the
division and the multiplication evaluated in binary64 arithmetic.  The
operands — loop counters and an array length — are integers below
`2 ^ 53` and hence exact doubles. -/
def floatGradientIndex (pos total n : Nat) : Nat :=
  if 1 < total then
    (⌊jsMul (jsDiv (pos : ℚ) ((total : ℚ) - 1)) ((n : ℚ) - 1)⌋).toNat
  else 0

/-- `selectEmoji` (`renderer.ts` lines 124-164).  JS out-of-range
indexing yields `undefined`, modelled as `none`.  Only the `random`
branch advances the generator; the result pairs the selected emoji with
the new seed. -/
def selectEmoji (emojis : List Str) (row col totalRows totalCols : Nat)
    (mode : EmojiMode) (seed : Nat) : Option Str × Nat :=
  if emojis.length == 1 then (emojis.get? 0, seed)
  else
    match mode with
    | .random =>
      let (i, newSeed) := nextInt seed emojis.length
      (emojis.get? i, newSeed)
    | .row => (emojis.get? (row % emojis.length), seed)
    | .column => (emojis.get? (col % emojis.length), seed)
    | .rowGradient =>
      (emojis.get? (min (floatGradientIndex row totalRows emojis.length) (emojis.length - 1)),
        seed)
    | .columnGradient =>
      (emojis.get? (min (floatGradientIndex col totalCols emojis.length) (emojis.length - 1)),
        seed)

/-- `Math.sin` and `Math.cos`, consumed as an opaque pure-function
parameter (they are used only for the GitHub theme's spatial noise). -/
structure TrigModel where
  sin : ℚ → ℚ
  cos : ℚ → ℚ

/-- `calculateGitHubIntensity` (`renderer.ts` lines 235-257): one draw of
the generator plus a smooth spatial term, thresholded to a level 1-4.
`0.3` is modelled as the exact rational `3/10` (the JS double is within
`2 ^ -54` of it; no claim depends on the threshold boundaries). -/
def calculateGitHubIntensity (trig : TrigModel) (row col totalRows totalCols : Nat)
    (seed : Nat) : Nat × Nat :=
  let newSeed := lcgNext seed
  let baseIntensity : ℚ := nextValue newSeed
  let spatialNoise : ℚ := trig.sin ((row : ℚ) * (1 / 2)) * trig.cos ((col : ℚ) * (1 / 2)) * (3 / 10)
  let combined := baseIntensity + spatialNoise
  (if combined < 1 / 4 then 1
   else if combined < 1 / 2 then 2
   else if combined < 3 / 4 then 3
   else 4, newSeed)

/-- The crash `renderBitmap` suffers when an out-of-range selection hands
`undefined` to `fitToWidth` (a `TypeError` inside `isLikelyCustomEmoji`). -/
inductive RenderError where
  | undefinedGlyph
  deriving DecidableEq, Repr

/-- `bitmap[row][col]` with JS semantics: a missing row or cell is
`undefined`, which is falsy. -/
def bitAt (bitmap : Bitmap) (row col : Nat) : Bool :=
  (((bitmap.get? row).getD []).get? col).getD false

/-- The candidate list `renderBitmap` draws from (line 176): the GitHub
theme's palette overrides the configured foreground emojis. -/
def effectiveEmojis (config : RenderConfig) : List Str :=
  if config.theme == .github then getThemeEmojis else config.foregroundEmojis

/-- The background emoji actually used (line 181): the configured one if
non-empty (JS `||` treats the empty string as falsy), else the default. -/
def effectiveBackground (config : RenderConfig) : Str :=
  if config.backgroundEmoji.isEmpty then getBackgroundEmoji else config.backgroundEmoji

/-- The uniform cell width (lines 184-187): the maximal display width of
the sample emojis (the effective candidate list), floored at 2.
`Math.max` of an empty spread is `-Infinity`, absorbed by the floor. -/
def cellWidthOf (config : RenderConfig) : Nat :=
  max (((effectiveEmojis config).map getDisplayWidth).foldr max 0) 2

/-- The raw glyph chosen for one cell of `renderBitmap`'s loop, threading
the generator seed: the padded background for a background cell, the
theme-intensity palette entry or `selectEmoji`'s choice for a foreground
cell.  An out-of-range selection (`undefined`) is the crash case. -/
def renderCell (trig : TrigModel) (bitmap : Bitmap) (config : RenderConfig)
    (height width row col : Nat) (seed : Nat) : Except RenderError (Str × Nat) :=
  if bitAt bitmap row col then
    if config.theme == .github then
      let (level, newSeed) :=
        calculateGitHubIntensity trig row col height width seed
      match (effectiveEmojis config).get? level with
      | some g => .ok (g, newSeed)
      | none => .error .undefinedGlyph
    else
      match selectEmoji (effectiveEmojis config) row col height width config.mode seed with
      | (some g, newSeed) => .ok (g, newSeed)
      | (none, _) => .error .undefinedGlyph
  else
    .ok (effectiveBackground config, seed)

/-- The inner column loop of `renderBitmap`: the raw glyphs of one row,
threading the generator seed left to right; a crash aborts the render. -/
def renderRowGo (trig : TrigModel) (bitmap : Bitmap) (config : RenderConfig)
    (height width row : Nat) :
    List Nat → Nat → Except RenderError (List Str × Nat)
  | [], seed => .ok ([], seed)
  | col :: cols, seed =>
    match renderCell trig bitmap config height width row col seed with
    | .error e => .error e
    | .ok (g, seed') =>
      match renderRowGo trig bitmap config height width row cols seed' with
      | .error e => .error e
      | .ok (rest, seed'') => .ok (g :: rest, seed'')

/-- The outer row loop of `renderBitmap`: the raw glyphs of all rows,
with the generator seed threaded across the whole render. -/
def renderRowsGo (trig : TrigModel) (bitmap : Bitmap) (config : RenderConfig)
    (height width : Nat) :
    List Nat → Nat → Except RenderError (List (List Str) × Nat)
  | [], seed => .ok ([], seed)
  | row :: rows, seed =>
    match renderRowGo trig bitmap config height width row (List.range width) seed with
    | .error e => .error e
    | .ok (g, seed') =>
      match renderRowsGo trig bitmap config height width rows seed' with
      | .error e => .error e
      | .ok (rest, seed'') => .ok (g :: rest, seed'')

/-- `bitmap[0].length` guarded by the height check (lines 190-191). -/
def bitmapWidth (bitmap : Bitmap) : Nat :=
  ((bitmap.head?).getD []).length

/-- The grid of raw glyphs of one render, starting from the given seed. -/
def glyphRows (trig : TrigModel) (seed : Nat) (bitmap : Bitmap) (config : RenderConfig) :
    Except RenderError (List (List Str)) :=
  (renderRowsGo trig bitmap config bitmap.length (bitmapWidth bitmap)
    (List.range bitmap.length) seed).map Prod.fst

/-- The output lines built from the raw glyph grid: every glyph —
foreground or the background — is fitted to the uniform cell width and
the cells of a row are concatenated (the `line +=` loop). -/
def renderLinesOf (config : RenderConfig) (rows : List (List Str)) : List Str :=
  rows.map (fun row => (row.map (fun g => fitToWidth g (cellWidthOf config))).flatten)

/-- `BannerResult` (`src/src/types.ts`). -/
structure BannerResult where
  text : Str
  backgroundEmoji : Str
  bitmap : Bitmap
  width : Nat
  height : Nat
  deriving DecidableEq, Repr

/-- `renderBitmap` generalized over the generator's initial seed. -/
def renderBitmapSeeded (trig : TrigModel) (seed : Nat) (bitmap : Bitmap)
    (config : RenderConfig) : Except RenderError BannerResult :=
  (glyphRows trig seed bitmap config).map (fun rows =>
    { text := List.intercalate [Char.ofNat 10] (renderLinesOf config rows)
      backgroundEmoji := effectiveBackground config
      bitmap := bitmap
      width := bitmapWidth bitmap
      height := bitmap.length })

/-- `renderBitmap` (`renderer.ts` lines 169-230): a fresh generator is
created with the fixed seed 42 on every call. -/
def renderBitmap (trig : TrigModel) (bitmap : Bitmap) (config : RenderConfig) :
    Except RenderError BannerResult :=
  renderBitmapSeeded trig 42 bitmap config

/-! ## Concrete fixtures used by witnesses and counterexamples -/

/-- A small concrete pixel font (height 3, letter spacing 1, line
spacing 1) with glyphs for `A`, `B`, `?` and the space, used to
instantiate theorems that quantify over the opaque font. -/
def testFont : PixelFont where
  map := fun cp =>
    if cp = 65 then some [[35, 35, 35], [35, 0, 35], [35, 35, 35]]
    else if cp = 66 then some [[35, 35], [35, 35], [35, 35]]
    else if cp = 63 then some [[35], [0], [35]]
    else if cp = 32 then some [[], [], []]
    else none
  height := 3
  letterSpacing := 1
  lineSpacing := 1

/-- A concrete trigonometry model used to instantiate theorems that
quantify over the opaque `Math.sin`/`Math.cos` parameter. -/
def trigZero : TrigModel := ⟨fun _ => 0, fun _ => 0⟩

/-- 51 copies of the fire emoji as UTF-16 code units (each occupies a
surrogate pair, 102 units in total). -/
def fireUnits : Units := (List.replicate 51 [55357, 56613]).flatten

/-- The four-letter alias-shaped token `fire`. -/
def fireStr : Str := ['f', 'i', 'r', 'e']

/-- A render configuration whose single foreground candidate is the
alias-shaped token `fire` and whose background is a dot. -/
def cexConfig : RenderConfig :=
  { foregroundEmojis := [fireStr]
    backgroundEmoji := ['.']
    mode := .row
    theme := .defaultTheme }

/-! ## Claim theorems -/

/-- C1: `renderBitmap` is a deterministic function of the bitmap and the
render configuration: it has no impure inputs — the pseudo-random
generator is a seeded linear-congruential recurrence created fresh with
the fixed seed 42 inside every render call — so two calls with the same
bitmap and configuration produce identical results, in particular
byte-identical output text, and more generally any two renders from the
same seed coincide. -/
theorem claim1_render_deterministic (trig : TrigModel) (bitmap : Bitmap)
    (config : RenderConfig) :
    (renderBitmap trig bitmap config = renderBitmap trig bitmap config ∧
      renderBitmap trig bitmap config = renderBitmapSeeded trig 42 bitmap config) ∧
    ∀ seed : Nat,
      renderBitmapSeeded trig seed bitmap config = renderBitmapSeeded trig seed bitmap config :=
  ⟨⟨rfl, rfl⟩, fun _ => rfl⟩

/-- C7: `decodeEscapes` maps backslash-n to a line feed, a doubled
backslash to a single backslash, leaves any other backslash-X pair as
the two characters backslash then X, preserves a trailing unpaired
backslash, and passes every other character through unchanged
(92 = backslash, 110 = n, 10 = line feed). -/
theorem claim7_escape_decoding :
    (∀ rest : Units, decodeEscapes (92 :: 110 :: rest) = 10 :: decodeEscapes rest) ∧
    (∀ rest : Units, decodeEscapes (92 :: 92 :: rest) = 92 :: decodeEscapes rest) ∧
    (∀ (next : Nat) (rest : Units), next ≠ 110 → next ≠ 92 →
      decodeEscapes (92 :: next :: rest) = 92 :: next :: decodeEscapes rest) ∧
    decodeEscapes [92] = [92] ∧
    (∀ (u : Nat) (rest : Units), u ≠ 92 → decodeEscapes (u :: rest) = u :: decodeEscapes rest) ∧
    decodeEscapes [] = [] := by
  refine ⟨fun rest => rfl, fun rest => rfl, ?_, rfl, ?_, rfl⟩
  · intro next rest h110 h92
    simp [decodeEscapes, h110, h92]
  · intro u rest hu
    match rest with
    | [] => simp [decodeEscapes, hu]
    | v :: rest' => simp [decodeEscapes, hu]

/-- Witness for C7 at concrete inputs: an unknown escape passes through
with its backslash, and an ordinary character passes through. -/
theorem claim7_witness :
    decodeEscapes [92, 120, 65] = [92, 120, 65] ∧ decodeEscapes [65] = [65] := by
  have h := claim7_escape_decoding
  constructor
  · rw [h.2.2.1 120 [65] (by decide) (by decide), h.2.2.2.2.1 65 [] (by decide)]
    rfl
  · rw [h.2.2.2.2.1 65 [] (by decide)]
    rfl

theorem le_roundHalfEven (x : ℚ) : ⌊x⌋ ≤ roundHalfEven x := by
  unfold roundHalfEven
  split
  · exact le_rfl
  · split
    · omega
    · split <;> omega

theorem roundHalfEven_le (x : ℚ) : roundHalfEven x ≤ ⌊x⌋ + 1 := by
  unfold roundHalfEven
  split
  · omega
  · split
    · exact le_rfl
    · split <;> omega

theorem roundHalfEven_intCast (n : ℤ) : roundHalfEven (n : ℚ) = n := by
  unfold roundHalfEven
  rw [Int.fract_intCast, Int.floor_intCast]
  norm_num

theorem roundHalfEven_mono {x y : ℚ} (h : x ≤ y) : roundHalfEven x ≤ roundHalfEven y := by
  have hf : ⌊x⌋ ≤ ⌊y⌋ := Int.floor_le_floor h
  rcases eq_or_lt_of_le hf with heq | hlt
  · have hfr : Int.fract x ≤ Int.fract y := by
      unfold Int.fract
      rw [← heq]
      exact sub_le_sub_right h _
    unfold roundHalfEven
    rw [← heq]
    by_cases h1 : Int.fract x < 1 / 2
    · rw [if_pos h1]
      split
      · exact le_rfl
      · split
        · omega
        · split <;> omega
    · have h1y : ¬Int.fract y < 1 / 2 := fun hy => h1 (lt_of_le_of_lt hfr hy)
      rw [if_neg h1, if_neg h1y]
      by_cases h2 : 1 / 2 < Int.fract x
      · rw [if_pos h2, if_pos (lt_of_lt_of_le h2 hfr)]
      · rw [if_neg h2]
        by_cases h2y : 1 / 2 < Int.fract y
        · rw [if_pos h2y]
          split <;> omega
        · rw [if_neg h2y]
  · calc roundHalfEven x ≤ ⌊x⌋ + 1 := roundHalfEven_le x
      _ ≤ ⌊y⌋ := by omega
      _ ≤ roundHalfEven y := le_roundHalfEven y

theorem fl_of_nonpos {q : ℚ} (h : q ≤ 0) : fl q = 0 := by
  unfold fl
  rw [if_pos h]

theorem fl_nonneg (q : ℚ) : 0 ≤ fl q := by
  unfold fl
  split
  · exact le_rfl
  · rename_i hq
    push_neg at hq
    have hx : (0 : ℚ) < q / 2 ^ (Int.log 2 q - 52) :=
      div_pos hq (zpow_pos (by norm_num) _)
    have h1 : (0 : ℤ) ≤ ⌊q / 2 ^ (Int.log 2 q - 52)⌋ := Int.floor_nonneg.mpr (le_of_lt hx)
    have h2 := le_roundHalfEven (q / 2 ^ (Int.log 2 q - 52))
    have : (0 : ℚ) ≤ (roundHalfEven (q / 2 ^ (Int.log 2 q - 52)) : ℚ) := by
      exact_mod_cast le_trans h1 h2
    exact mul_nonneg this (le_of_lt (zpow_pos (by norm_num) _))

theorem fl_bounds {q : ℚ} (hq : 0 < q) :
    (2 : ℚ) ^ Int.log 2 q ≤ fl q ∧ fl q ≤ (2 : ℚ) ^ (Int.log 2 q + 1) := by
  have hlow : (2 : ℚ) ^ Int.log 2 q ≤ q := by
    have := Int.zpow_log_le_self (b := 2) (by norm_num) hq
    exact_mod_cast this
  have hhigh : q < (2 : ℚ) ^ (Int.log 2 q + 1) := by
    have := Int.lt_zpow_succ_log_self (b := 2) (by norm_num) q
    exact_mod_cast this
  set e : ℤ := Int.log 2 q with he
  have hpow : (0 : ℚ) < 2 ^ (e - 52) := zpow_pos (by norm_num) _
  set x : ℚ := q / 2 ^ (e - 52) with hx
  have hx1 : (2 : ℚ) ^ (52 : ℤ) ≤ x := by
    rw [hx, le_div_iff₀ hpow, ← zpow_add₀ (two_ne_zero)]
    simpa using hlow
  have hx2 : x < (2 : ℚ) ^ (53 : ℤ) := by
    rw [hx, div_lt_iff₀ hpow, ← zpow_add₀ (two_ne_zero)]
    convert hhigh using 2
    omega
  have hfl : fl q = (roundHalfEven x : ℚ) * 2 ^ (e - 52) := by
    unfold fl
    rw [if_neg (not_le.mpr hq)]
  constructor
  · rw [hfl]
    have hfloor : (2 ^ 52 : ℤ) ≤ ⌊x⌋ := by
      rw [Int.le_floor]
      exact_mod_cast hx1
    have h1 : ((2 : ℚ) ^ (52 : ℤ)) ≤ (roundHalfEven x : ℚ) := by
      have := le_trans hfloor (le_roundHalfEven x)
      exact_mod_cast this
    calc (2 : ℚ) ^ e = 2 ^ (52 : ℤ) * 2 ^ (e - 52) := by
          rw [← zpow_add₀ (two_ne_zero : (2:ℚ) ≠ 0)]
          congr 1
          omega
      _ ≤ (roundHalfEven x : ℚ) * 2 ^ (e - 52) := mul_le_mul_of_nonneg_right h1 (le_of_lt hpow)
  · rw [hfl]
    have hfloor : ⌊x⌋ < 2 ^ 53 := by
      rw [Int.floor_lt]
      exact_mod_cast hx2
    have h1 : (roundHalfEven x : ℚ) ≤ (2 : ℚ) ^ (53 : ℤ) := by
      have := le_trans (roundHalfEven_le x) (by omega : ⌊x⌋ + 1 ≤ 2 ^ 53)
      exact_mod_cast this
    calc (roundHalfEven x : ℚ) * 2 ^ (e - 52)
        ≤ (2 : ℚ) ^ (53 : ℤ) * 2 ^ (e - 52) := mul_le_mul_of_nonneg_right h1 (le_of_lt hpow)
      _ = 2 ^ (e + 1) := by
          rw [← zpow_add₀ (two_ne_zero : (2:ℚ) ≠ 0)]
          congr 1
          omega

theorem fl_mono {q1 q2 : ℚ} (h : q1 ≤ q2) : fl q1 ≤ fl q2 := by
  by_cases h1 : q1 ≤ 0
  · rw [fl_of_nonpos h1]
    exact fl_nonneg q2
  · push_neg at h1
    have h2 : (0 : ℚ) < q2 := lt_of_lt_of_le h1 h
    have hee : Int.log 2 q1 ≤ Int.log 2 q2 := Int.log_mono_right h1 h
    rcases eq_or_lt_of_le hee with heq | hlt
    · unfold fl
      rw [if_neg (not_le.mpr h1), if_neg (not_le.mpr h2), ← heq]
      have hpow : (0 : ℚ) < 2 ^ (Int.log 2 q1 - 52) := zpow_pos (by norm_num) _
      have hx : q1 / 2 ^ (Int.log 2 q1 - 52) ≤ q2 / 2 ^ (Int.log 2 q1 - 52) :=
        (div_le_div_iff_of_pos_right hpow).mpr h
      have := roundHalfEven_mono hx
      exact mul_le_mul_of_nonneg_right (by exact_mod_cast this) (le_of_lt hpow)
    · calc fl q1 ≤ 2 ^ (Int.log 2 q1 + 1) := (fl_bounds h1).2
        _ ≤ 2 ^ Int.log 2 q2 := by
            apply zpow_le_zpow_right₀ (by norm_num : (1:ℚ) ≤ 2)
            omega
        _ ≤ fl q2 := (fl_bounds h2).1

theorem fl_natCast (m : ℕ) (h : m < 2 ^ 53) : fl (m : ℚ) = m := by
  rcases Nat.eq_zero_or_pos m with rfl | hm
  · simpa using fl_of_nonpos (le_refl (0 : ℚ))
  · have hq : (0 : ℚ) < m := by exact_mod_cast hm
    have hle : Int.log 2 (m : ℚ) = Nat.log 2 m := Int.log_natCast 2 m
    have hlt : Nat.log 2 m < 53 := Nat.log_lt_of_lt_pow (Nat.pos_iff_ne_zero.mp hm) h
    obtain ⟨j, hj⟩ : ∃ j : ℕ, (52 : ℤ) - Int.log 2 (m : ℚ) = j := by
      refine ⟨(52 - Nat.log 2 m : ℕ), ?_⟩
      rw [hle]
      omega
    have hxcast : (m : ℚ) / 2 ^ (Int.log 2 (m : ℚ) - 52) = ((m * 2 ^ j : ℕ) : ℚ) := by
      rw [div_eq_mul_inv, ← zpow_neg]
      have : -(Int.log 2 (m : ℚ) - 52) = (j : ℤ) := by omega
      rw [this, zpow_natCast]
      push_cast
      ring
    unfold fl
    rw [if_neg (not_le.mpr hq), hxcast]
    have hrhe : roundHalfEven ((m * 2 ^ j : ℕ) : ℚ) = ((m * 2 ^ j : ℕ) : ℤ) := by
      rw [show ((m * 2 ^ j : ℕ) : ℚ) = (((m * 2 ^ j : ℕ) : ℤ) : ℚ) by push_cast; ring]
      exact roundHalfEven_intCast _
    rw [hrhe]
    have hzj : ((2 : ℚ)) ^ (Int.log 2 (m : ℚ) - 52) = ((2 : ℚ) ^ j)⁻¹ := by
      rw [← zpow_natCast (2 : ℚ) j, ← zpow_neg]
      congr 1
      omega
    rw [hzj]
    push_cast
    rw [mul_assoc, mul_inv_cancel₀ (by positivity), mul_one]

end EmojiBanner
namespace EmojiBanner

theorem floatGradientIndex_mono (t n : ℕ) (hN : 2 ≤ n) {r₁ r₂ : ℕ} (h : r₁ ≤ r₂) :
    floatGradientIndex r₁ t n ≤ floatGradientIndex r₂ t n := by
  unfold floatGradientIndex
  split
  · rename_i ht
    apply Int.toNat_le_toNat
    apply Int.floor_le_floor
    apply fl_mono
    apply mul_le_mul_of_nonneg_right
    · apply fl_mono
      have hpos : (0 : ℚ) < (t : ℚ) - 1 := by
        have : (1 : ℚ) < (t : ℚ) := by exact_mod_cast ht
        linarith
      exact (div_le_div_iff_of_pos_right hpos).mpr (by exact_mod_cast h)
    · have h2 : (2 : ℚ) ≤ (n : ℚ) := by exact_mod_cast hN
      linarith
  · exact le_rfl

theorem floatGradientIndex_zero (t n : ℕ) : floatGradientIndex 0 t n = 0 := by
  unfold floatGradientIndex
  split
  · rw [show ((0 : ℕ) : ℚ) = 0 from rfl]
    unfold jsDiv
    rw [zero_div, fl_of_nonpos le_rfl]
    unfold jsMul
    rw [zero_mul, fl_of_nonpos le_rfl]
    simp
  · rfl

theorem floatGradientIndex_last (t n : ℕ) (ht : 2 ≤ t) (hn : 2 ≤ n) (h53 : n ≤ 2 ^ 53) :
    floatGradientIndex (t - 1) t n = n - 1 := by
  unfold floatGradientIndex
  rw [if_pos (by omega : 1 < t)]
  have hct : ((t - 1 : ℕ) : ℚ) = (t : ℚ) - 1 := by
    rw [Nat.cast_sub (by omega : 1 ≤ t), Nat.cast_one]
  have hcn : ((n - 1 : ℕ) : ℚ) = (n : ℚ) - 1 := by
    rw [Nat.cast_sub (by omega : 1 ≤ n), Nat.cast_one]
  have htpos : (0 : ℚ) < (t : ℚ) - 1 := by
    have : (2 : ℚ) ≤ (t : ℚ) := by exact_mod_cast ht
    linarith
  have hdiv : jsDiv ((t - 1 : ℕ) : ℚ) ((t : ℚ) - 1) = 1 := by
    unfold jsDiv
    rw [hct, div_self (ne_of_gt htpos)]
    have := fl_natCast 1 (by norm_num)
    simpa using this
  rw [hdiv]
  have hmul : jsMul 1 ((n : ℚ) - 1) = ((n - 1 : ℕ) : ℚ) := by
    unfold jsMul
    rw [one_mul, ← hcn]
    exact fl_natCast (n - 1) (by omega)
  rw [hmul, Int.floor_natCast, Int.toNat_natCast]

theorem floatGradientIndex_of_one (pos n : ℕ) : floatGradientIndex pos 1 n = 0 := by
  unfold floatGradientIndex
  simp

/-- `Int.log` base 2 from the two power bounds. -/
theorem intLog2_eq {q : ℚ} {e : ℤ} (hq : 0 < q) (h1 : (2:ℚ) ^ e ≤ q)
    (h2 : q < (2:ℚ) ^ (e + 1)) : Int.log 2 q = e := by
  have hle : e ≤ Int.log 2 q := (Int.zpow_le_iff_le_log (by norm_num) hq).mp h1
  have hlt : Int.log 2 q < e + 1 := (Int.lt_zpow_iff_log_lt (by norm_num) hq).mp h2
  omega

/-- `roundHalfEven` evaluated from bracketing below the half. -/
theorem roundHalfEven_eq_of_lt_half {x : ℚ} {n : ℤ} (h1 : (n:ℚ) ≤ x)
    (h2 : x < n + 1/2) : roundHalfEven x = n := by
  have hfl : ⌊x⌋ = n := by
    rw [Int.floor_eq_iff]
    exact ⟨h1, by linarith⟩
  have hfr : Int.fract x < 1/2 := by
    unfold Int.fract
    rw [hfl]
    linarith
  unfold roundHalfEven
  rw [if_pos hfr, hfl]

/-- `fl` evaluated from its exponent bracket and rounded significand. -/
theorem fl_eval {q : ℚ} {e m : ℤ} (hq : 0 < q) (h1 : (2:ℚ) ^ e ≤ q)
    (h2 : q < (2:ℚ) ^ (e + 1)) (hm : roundHalfEven (q / 2 ^ (e - 52)) = m) :
    fl q = (m:ℚ) * 2 ^ (e - 52) := by
  have he := intLog2_eq hq h1 h2
  unfold fl
  rw [if_neg (not_le.mpr hq), he, hm]

/-- The reviewer-visible deviation of binary64 evaluation from the
exact rational floor: at row 1 of 50 rows with 50 candidates, the
double nearest 1/49 falls short, its product with 49 rounds to
1 - 2^-53, and the floor is 0, not the exact formula's 1. -/
theorem floatGradientIndex_one_fifty : floatGradientIndex 1 50 50 = 0 := by
  have hdiv : jsDiv (1:ℚ) 49 = (5882252574524729:ℚ) * 2 ^ ((-6:ℤ) - 52) := by
    unfold jsDiv
    rw [show (1:ℚ)/49 = 1/49 from rfl]
    exact fl_eval (e := -6) (by norm_num) (by norm_num) (by norm_num)
      (roundHalfEven_eq_of_lt_half
        (by rw [le_div_iff₀ (by positivity)]; norm_num)
        (by rw [div_lt_iff₀ (by positivity)]; norm_num))
  have hmul : jsMul ((5882252574524729:ℚ) * 2 ^ ((-6:ℤ) - 52)) 49
      = (9007199254740991:ℚ) * 2 ^ ((-1:ℤ) - 52) := by
    unfold jsMul
    exact fl_eval (e := -1) (by norm_num) (by norm_num) (by norm_num)
      (roundHalfEven_eq_of_lt_half
        (by rw [le_div_iff₀ (by positivity)]; norm_num)
        (by rw [div_lt_iff₀ (by positivity)]; norm_num))
  unfold floatGradientIndex
  rw [if_pos (by norm_num : 1 < 50)]
  have hcast1 : ((1:ℕ):ℚ) = 1 := by norm_num
  have hcast50 : ((50:ℕ):ℚ) - 1 = 49 := by norm_num
  rw [hcast1, hcast50, hdiv, hmul]
  rw [show ⌊(9007199254740991:ℚ) * 2 ^ ((-1:ℤ) - 52)⌋ = 0 from by
    rw [show ((-1:ℤ) - 52) = (-53:ℤ) from by norm_num, Int.floor_eq_iff]
    constructor <;> norm_num]
  rfl

/-- C4 (amended): in the gradient modes with at least two candidates,
`selectEmoji` picks the candidate at index
`Math.floor((pos / (total - 1)) * (N - 1))` evaluated in binary64
arithmetic, clamped to `N - 1` (0 when `total` is 1), where `pos` is
the row for `row-gradient` and the column for `column-gradient`;
because of rounding, this floor can fall one below the exact rational
floor.  The clamped index is still non-decreasing in the position,
equals 0 at position 0, and equals `N - 1` at the last position (for
candidate counts up to `2 ^ 53`; every JS array's length is far
below). -/
theorem claim4_gradient_selection (emojis : List Str) (row col totalRows totalCols seed : Nat)
    (hN : 2 ≤ emojis.length) (h53 : emojis.length ≤ 2 ^ 53) :
    (selectEmoji emojis row col totalRows totalCols .rowGradient seed =
      (emojis.get?
          (min (floatGradientIndex row totalRows emojis.length) (emojis.length - 1)),
        seed)) ∧
    (selectEmoji emojis row col totalRows totalCols .columnGradient seed =
      (emojis.get?
          (min (floatGradientIndex col totalCols emojis.length) (emojis.length - 1)),
        seed)) ∧
    (∀ r₁ r₂, r₁ ≤ r₂ →
      min (floatGradientIndex r₁ totalRows emojis.length) (emojis.length - 1) ≤
        min (floatGradientIndex r₂ totalRows emojis.length) (emojis.length - 1)) ∧
    min (floatGradientIndex 0 totalRows emojis.length) (emojis.length - 1) = 0 ∧
    (2 ≤ totalRows →
      min (floatGradientIndex (totalRows - 1) totalRows emojis.length)
          (emojis.length - 1) =
        emojis.length - 1) ∧
    (totalRows = 1 → floatGradientIndex row totalRows emojis.length = 0) := by
  have hne : (emojis.length == 1) = false := by
    simp only [beq_eq_false_iff_ne, ne_eq]
    omega
  refine ⟨by simp [selectEmoji, hne], by simp [selectEmoji, hne], ?_, ?_, ?_, ?_⟩
  · intro r₁ r₂ h
    exact min_le_min (floatGradientIndex_mono totalRows emojis.length hN h) le_rfl
  · rw [floatGradientIndex_zero]
    exact Nat.zero_min _
  · intro h2
    rw [floatGradientIndex_last totalRows emojis.length h2 hN h53, min_self]
  · intro h1
    rw [h1, floatGradientIndex_of_one]

/-- Witness for C4 at concrete inputs: with two rows the progress is an
exact double, so the first row (the last) picks the last of three
candidates and row 0 picks the first. -/
theorem claim4_witness :
    2 ≤ ([['a'], ['b'], ['c']] : List Str).length ∧
    ([['a'], ['b'], ['c']] : List Str).length ≤ 2 ^ 53 ∧
    selectEmoji [['a'], ['b'], ['c']] 1 0 2 1 .rowGradient 7 = (some ['c'], 7) ∧
    selectEmoji [['a'], ['b'], ['c']] 0 0 2 1 .rowGradient 7 = (some ['a'], 7) := by
  have h1 := claim4_gradient_selection [['a'], ['b'], ['c']] 1 0 2 1 7 (by decide) (by norm_num)
  have h0 := claim4_gradient_selection [['a'], ['b'], ['c']] 0 0 2 1 7 (by decide) (by norm_num)
  refine ⟨by decide, by norm_num, ?_, ?_⟩
  · rw [h1.1]
    have he := h1.2.2.2.2.1 (by norm_num)
    rw [show (2 - 1 : ℕ) = 1 from rfl] at he
    rw [he]
    rfl
  · rw [h0.1]
    rw [h0.2.2.2.1]
    rfl

/-- C4 counterexample to the claim as stated: at row 1 of 50 rows with
50 candidates, the binary64 evaluation floors to 0 while the exact
formula `floor((row / (totalRows - 1)) * (N - 1))` gives 1, so
`selectEmoji` returns candidate 0 where the claim predicts candidate 1. -/
theorem claim4_float_counterexample :
    floatGradientIndex 1 50 50 = 0 ∧
    min (1 * (50 - 1) / (50 - 1)) (50 - 1) = 1 ∧
    (selectEmoji ((List.range 50).map (fun i => [Char.ofNat (65 + i)])) 1 0 50 1
        .rowGradient 7).1 = some [Char.ofNat 65] := by
  refine ⟨floatGradientIndex_one_fifty, by norm_num, ?_⟩
  have hlen : ((List.range 50).map (fun i => [Char.ofNat (65 + i)])).length = 50 := by
    simp
  unfold selectEmoji
  rw [hlen]
  norm_num
  rw [floatGradientIndex_one_fifty]
  decide

/-- C10: evaluation of the generator and of `selectEmoji` at the
boundary state 230538014.  The update `(s * 1103515245 + 12345) &
0x7fffffff` there yields the mask value `2 ^ 31 - 1` itself, so `next()`
— which divides by `0x7fffffff`, the mask, not `2 ^ 31` — returns
exactly 1, `nextInt(2)` returns 2, and `selectEmoji` in mode `random`
with two candidates indexes past the end of the list (`undefined`),
contradicting the claim that the drawn index is always strictly below
the candidate count. -/
theorem claim10_boundary_state_eval :
    lcgNext 230538014 = 2147483647 ∧
    nextValue (lcgNext 230538014) = 1 ∧
    nextInt 230538014 2 = (2, 2147483647) ∧
    selectEmoji [['a'], ['b']] 0 0 1 1 .random 230538014 = (none, 2147483647) := by
  refine ⟨by decide, ?_, by decide, by decide⟩
  norm_num [nextValue, lcgNext]

/-- C3 (amended): the text handed to rasterization is
`sanitizedText.slice(0, 100)`, a slice of UTF-16 CODE UNITS: it has at
most 100 code units, is a prefix of the sanitized text, every one of the
first 100 code units is kept, and a sanitized text of at most 100 code
units passes through whole. -/
theorem claim3_truncation_is_code_units (text : Units) (vertical : Bool) :
    (truncatedText text vertical).length ≤ 100 ∧
    truncatedText text vertical = (sanitizedText text vertical).take 100 ∧
    ((sanitizedText text vertical).length ≤ 100 →
      truncatedText text vertical = sanitizedText text vertical) ∧
    ∀ i < 100, (truncatedText text vertical).get? i = (sanitizedText text vertical).get? i := by
  refine ⟨?_, rfl, ?_, ?_⟩
  · simpa [truncatedText, MAX_TEXT_LENGTH] using min_le_left 100 (sanitizedText text vertical).length
  · intro h
    simp [truncatedText, MAX_TEXT_LENGTH, List.take_of_length_le h]
  · intro i hi
    simp [truncatedText, MAX_TEXT_LENGTH, List.getElem?_take_of_lt hi]

/-- Witness for C3 at a concrete input. -/
theorem claim3_witness :
    (truncatedText [65] false).length ≤ 100 ∧
    ((sanitizedText [65] false).length ≤ 100 →
      truncatedText [65] false = sanitizedText [65] false) ∧
    (truncatedText [65] false).get? 0 = (sanitizedText [65] false).get? 0 := by
  have h := claim3_truncation_is_code_units [65] false
  exact ⟨h.1, h.2.2.1, h.2.2.2 0 (by decide)⟩

/-- C3 counterexample to the claim as stated: 51 fire emoji are 51
display characters — within the stated limit of 100 — but occupy 102
code units, and the code-unit slice keeps only 50 of them, so not all of
the first 100 display characters are kept. -/
theorem claim3_display_character_counterexample :
    fireUnits ≠ [] ∧
    (codePoints (sanitizedText fireUnits false)).length = 51 ∧
    (codePoints (truncatedText fireUnits false)).length = 50 := by decide

/-- C8: rasterizing `"AB"` with vertical mode produces exactly the
bitmap of rasterizing `"A\nB"` without it, for every font (65 = A,
66 = B, 10 = line feed): vertical mode explodes the line into one
character per output line. -/
theorem claim8_vertical_stacking (font : PixelFont) :
    textToBitmap [65, 66] font true = textToBitmap [65, 10, 66] font false := by
  unfold textToBitmap
  have h : sanitizedText [65, 66] true = sanitizedText [65, 10, 66] false := by decide
  simp [h]

/-- C9: `textToBitmap` fails if and only if the raw text is empty or the
text is empty after escape decoding and sanitization (the two EmptyInput
error kinds), returning no partial result; whenever the sanitized text
is non-empty it returns a bitmap. -/
theorem claim9_empty_input_failure (text : Units) (font : PixelFont) (vertical : Bool) :
    ((∃ e, textToBitmap text font vertical = .error e) ↔
      text = [] ∨ sanitizedText text vertical = []) ∧
    (textToBitmap text font vertical = .error .required ↔ text = []) ∧
    (textToBitmap text font vertical = .error .emptyAfterSanitization ↔
      text ≠ [] ∧ sanitizedText text vertical = []) ∧
    (sanitizedText text vertical ≠ [] → ∃ b, textToBitmap text font vertical = .ok b) := by
  unfold textToBitmap fromSanitized
  by_cases h1 : text.isEmpty
  · have ht : text = [] := List.isEmpty_iff.mp h1
    subst ht
    have hs : sanitizedText [] vertical = [] := by cases vertical <;> decide
    simp [hs]
  · have ht : text ≠ [] := by simpa [List.isEmpty_iff] using h1
    by_cases h2 : (sanitizedText text vertical).isEmpty
    · have hs : sanitizedText text vertical = [] := List.isEmpty_iff.mp h2
      simp [h1, hs, ht]
    · have hs : sanitizedText text vertical ≠ [] := by simpa [List.isEmpty_iff] using h2
      simp [h1, h2, ht, hs]

/-- Witness for C9 at a concrete input: a non-empty sanitized text
yields a bitmap. -/
theorem claim9_witness :
    ∃ b, textToBitmap [65] testFont false = .ok b :=
  (claim9_empty_input_failure [65] testFont false).2.2.2 (by decide)

/-- After dropping the background prefix, a further forward drop is the
identity on the trimmed core: its head row is not all-background. -/
theorem trimCore_dropWhile_self {α : Type} (p : α → Bool) (l : List α)
    (hne : (l.dropWhile p).rdropWhile p ≠ []) :
    ((l.dropWhile p).rdropWhile p).dropWhile p = (l.dropWhile p).rdropWhile p := by
  have hX : l.dropWhile p ≠ [] := by
    intro h0
    rw [h0] at hne
    simp [List.rdropWhile] at hne
  obtain ⟨a, as, hXe⟩ := List.exists_cons_of_ne_nil hX
  have hpa : p a = false := by
    have h := List.head_dropWhile_not p l hX
    simpa [hXe] using h
  obtain ⟨t, ht⟩ := List.rdropWhile_prefix p (l.dropWhile p)
  obtain ⟨b, bs, hbe⟩ := List.exists_cons_of_ne_nil hne
  have hba : b = a := by
    rw [hbe, hXe] at ht
    injection ht
  rw [hbe, List.dropWhile_cons, hba, hpa]
  simp

/-- C6: trimming is idempotent: `trimBitmap (trimBitmap b) = trimBitmap b`
for every bitmap `b`, in particular on the already-trimmed results and on
the `[[]]` sentinel. -/
theorem claim6_trim_idempotent (bitmap : Bitmap) :
    trimBitmap (trimBitmap bitmap) = trimBitmap bitmap := by
  by_cases hb : bitmap.isEmpty
  · rw [List.isEmpty_iff.mp hb]
    decide
  · by_cases hc : ((bitmap.dropWhile rowAllBackground).rdropWhile rowAllBackground).isEmpty
    · have h1 : trimBitmap bitmap = [[]] := by
        simp only [trimBitmap]
        rw [if_neg hb, if_pos hc]
      rw [h1]
      decide
    · have h1 : trimBitmap bitmap =
          (bitmap.dropWhile rowAllBackground).rdropWhile rowAllBackground := by
        simp only [trimBitmap]
        rw [if_neg hb, if_neg hc]
      have hcne : (bitmap.dropWhile rowAllBackground).rdropWhile rowAllBackground ≠ [] := by
        simpa [List.isEmpty_iff] using hc
      have hdw := trimCore_dropWhile_self rowAllBackground bitmap hcne
      have hrd := List.rdropWhile_idempotent rowAllBackground (bitmap.dropWhile rowAllBackground)
      rw [h1]
      simp only [trimBitmap]
      rw [if_neg hc, hdw, hrd, if_neg hc]

/-- Every element of a list of naturals is at most its `foldr max 0`. -/
theorem le_foldr_max (l : List Nat) (a : Nat) (ha : a ∈ l) : a ≤ l.foldr max 0 := by
  induction l with
  | nil => cases ha
  | cons x xs ih =>
    rcases List.mem_cons.mp ha with rfl | h
    · exact le_max_left _ _
    · exact le_trans (ih h) (le_max_right _ _)

/-- The length of one character segment does not depend on the row index. -/
theorem charSegment_length (font : PixelFont) (total rowIndex : Nat) (ci : Nat × Nat) :
    (charSegment font total rowIndex ci).length =
      (getCharacterPattern ci.2 font).foldl (fun mx row => max mx row.length) 0 +
        (if ci.1 < total - 1 then font.letterSpacing else 0) := by
  simp [charSegment, apply_ite List.length]

/-- The length of one produced row of `renderLineToBitmap` does not
depend on the row index. -/
theorem lineRow_length (font : PixelFont) (chars : List Nat) (rowIndex : Nat) :
    ((chars.enum.map (charSegment font chars.length rowIndex)).flatten).length =
      (chars.enum.map (fun ci =>
        (getCharacterPattern ci.2 font).foldl (fun mx row => max mx row.length) 0 +
          (if ci.1 < chars.length - 1 then font.letterSpacing else 0))).sum := by
  rw [List.length_flatten, List.map_map]
  congr 1
  apply List.map_congr_left
  intro ci _
  simp [Function.comp, charSegment_length]

/-- Every row of a rasterized line has the same length as its first row. -/
theorem renderLineToBitmap_row_length (line : Units) (font : PixelFont) :
    ∀ r ∈ renderLineToBitmap line font,
      r.length = (((renderLineToBitmap line font).head?).getD []).length := by
  intro r hr
  simp only [renderLineToBitmap] at hr ⊢
  by_cases h : (codePoints line).isEmpty
  · rw [if_pos h] at hr ⊢
    rw [List.eq_of_mem_replicate hr]
    cases hh : font.height with
    | zero => rw [hh] at hr; simp at hr
    | succ n => simp [hh, List.replicate_succ]
  · rw [if_neg h] at hr ⊢
    obtain ⟨i, hi, rfl⟩ := List.mem_map.mp hr
    have hh : 0 < font.height := by
      rcases Nat.eq_zero_or_pos font.height with h0 | h0
      · rw [h0] at hi; simp at hi
      · exact h0
    obtain ⟨m, hm⟩ := Nat.exists_eq_succ_of_ne_zero (Nat.pos_iff_ne_zero.mp hh)
    rw [hm, List.range_succ_eq_map]
    simp only [List.map_cons, List.head?_cons, Option.getD_some]
    rw [lineRow_length, lineRow_length]

/-- A row of a trimmed bitmap is a row of the original, unless the trim
collapsed to the `[[]]` sentinel. -/
theorem mem_trimBitmap (b : Bitmap) (r : List Bool) (hr : r ∈ trimBitmap b) :
    r ∈ b ∨ trimBitmap b = [[]] := by
  simp only [trimBitmap] at hr ⊢
  by_cases hb : b.isEmpty
  · rw [if_pos hb] at hr
    exact Or.inl hr
  · rw [if_neg hb] at hr ⊢
    by_cases hc : ((b.dropWhile rowAllBackground).rdropWhile rowAllBackground).isEmpty
    · rw [if_pos hc] at hr ⊢
      exact Or.inr rfl
    · rw [if_neg hc] at hr
      left
      have h1 := ( List.rdropWhile_prefix rowAllBackground (b.dropWhile rowAllBackground)).sublist
      have h2 := (List.dropWhile_suffix (l := b) rowAllBackground).sublist
      exact (h1.trans h2).subset hr

/-- Rows of a merged bitmap all have the width of its first row, given
that each line bitmap is rectangular. -/
theorem mergeLines_rect (lineBitmaps : List Bitmap) (lineSpacing : Nat)
    (h : ∀ lb ∈ lineBitmaps, ∀ r ∈ lb, r.length = ((lb.head?).getD []).length) :
    ∀ r ∈ mergeLines lineBitmaps lineSpacing,
      r.length = (((mergeLines lineBitmaps lineSpacing).head?).getD []).length := by
  intro r hr
  simp only [mergeLines] at hr ⊢
  by_cases he : lineBitmaps.isEmpty
  · rw [if_pos he] at hr ⊢
    simp at hr
    simp [hr]
  · rw [if_neg he] at hr ⊢
    set W := (lineBitmaps.map (fun line => ((line.head?).getD []).length)).foldr max 0 with hW
    set merged :=
      (lineBitmaps.enum.map (fun il =>
        il.2.map (fun row => row ++ List.replicate (W - row.length) false)
          ++ (if il.1 < lineBitmaps.length - 1 && 0 < lineSpacing then
                List.replicate lineSpacing (List.replicate W false)
              else []))).flatten with hM
    have hm : ∀ x ∈ merged, x.length = W := by
      intro x hx
      rw [hM, List.mem_flatten] at hx
      obtain ⟨block, hblock, hxb⟩ := hx
      obtain ⟨il, hil, rfl⟩ := List.mem_map.mp hblock
      have hlb : il.2 ∈ lineBitmaps := List.get?_mem (List.mem_enum_iff_get?.mp hil)
      rcases List.mem_append.mp hxb with hpad | hspace
      · obtain ⟨row, hrow, rfl⟩ := List.mem_map.mp hpad
        have hrl : row.length = ((il.2.head?).getD []).length := h il.2 hlb row hrow
        have hle : ((il.2.head?).getD []).length ≤ W :=
          le_foldr_max _ _ (List.mem_map_of_mem _ hlb)
        simp only [List.length_append, List.length_replicate]
        omega
      · by_cases hcond : il.1 < lineBitmaps.length - 1 && 0 < lineSpacing
        · rw [if_pos hcond] at hspace
          rw [List.eq_of_mem_replicate hspace]
          simp
        · rw [if_neg hcond] at hspace
          cases hspace
    rcases mem_trimBitmap merged r hr with hrm | htriv
    · have hrW : r.length = W := hm r hrm
      cases hres : trimBitmap merged with
      | nil => rw [hres] at hr; cases hr
      | cons a l =>
        have ha : a ∈ trimBitmap merged := by rw [hres]; exact List.mem_cons_self a l
        rcases mem_trimBitmap merged a ha with ham | htriv2
        · have haW : a.length = W := hm a ham
          simp [hrW, haW]
        · have hal : a :: l = [[]] := by rw [← hres, htriv2]
          have hanil : a = [] := by injection hal
          have hrnil : r ∈ ([[]] : Bitmap) := by rw [← htriv2]; exact hr
          simp at hrnil
          simp [hrnil, hanil]
    · rw [htriv] at hr ⊢
      simp at hr
      simp [hr]

/-- C5: every bitmap produced by the core pipeline — line rasterization
followed by merging with line spacing and trimming, i.e. any successful
result of `textToBitmap` — is rectangular: every row has the same
length, and that length is the bitmap's declared width (the length of
the first row, as also reported by `getBitmapDimensions`). -/
theorem claim5_rectangular (text : Units) (font : PixelFont) (vertical : Bool) (b : Bitmap)
    (hb : textToBitmap text font vertical = .ok b) :
    (∀ r ∈ b, r.length = ((b.head?).getD []).length) ∧
    (getBitmapDimensions b).1 = ((b.head?).getD []).length := by
  constructor
  · unfold textToBitmap fromSanitized at hb
    by_cases h1 : text.isEmpty
    · rw [if_pos h1] at hb; cases hb
    · rw [if_neg h1] at hb
      by_cases h2 : (sanitizedText text vertical).isEmpty
      · rw [if_pos h2] at hb; cases hb
      · rw [if_neg h2] at hb
        injection hb with hb'
        rw [← hb']
        apply mergeLines_rect
        intro lb hlb
        obtain ⟨line, hline, rfl⟩ := List.mem_map.mp hlb
        exact renderLineToBitmap_row_length line font
  · cases b with
    | nil => simp [getBitmapDimensions]
    | cons a l => simp [getBitmapDimensions]

/-- Witness for C5 at the concrete input AB with the test font. -/
theorem claim5_witness :
    textToBitmap [65, 66] testFont false =
      .ok [[true, true, true, false, true, true],
           [true, false, true, false, true, true],
           [true, true, true, false, true, true]] ∧
    ∀ r ∈ [[true, true, true, false, true, true],
           [true, false, true, false, true, true],
           [true, true, true, false, true, true]],
      r.length = ((([[true, true, true, false, true, true],
                     [true, false, true, false, true, true],
                     [true, true, true, false, true, true]] : Bitmap).head?).getD []).length := by
  refine ⟨by decide, ?_⟩
  exact (claim5_rectangular [65, 66] testFont false _ (by decide)).1

theorem graphemeWidthSum_append (a b : Str) :
    graphemeWidthSum (a ++ b) = graphemeWidthSum a + graphemeWidthSum b := by
  simp [graphemeWidthSum]

theorem graphemeWidthSum_flatten (xs : List Str) :
    graphemeWidthSum xs.flatten = (xs.map graphemeWidthSum).sum := by
  induction xs with
  | nil => simp [graphemeWidthSum]
  | cons x xs ih => simp [List.flatten_cons, graphemeWidthSum_append, ih]

theorem graphemeWidthSum_replicate_space (k : Nat) :
    graphemeWidthSum (List.replicate k ' ') = k := by
  simp [graphemeWidthSum, List.map_replicate, List.sum_replicate, smul_eq_mul,
    show charDisplayWidth ' ' = 1 from by decide]

theorem getDisplayWidth_nil : getDisplayWidth [] = 0 := by decide

/-- A fitted cell of a non-alias glyph occupies exactly the target
number of display columns (summing per-grapheme widths). -/
theorem fitToWidth_graphemeWidthSum (g : Str) (w : Nat)
    (hg : isLikelyCustomEmoji g = false) :
    graphemeWidthSum (fitToWidth g w) = w := by
  have hgd : getDisplayWidth g = graphemeWidthSum g := by simp [getDisplayWidth, hg]
  unfold fitToWidth padToWidth
  by_cases h1 : getDisplayWidth g == w
  · rw [if_pos h1]
    rw [← hgd]
    exact eq_of_beq h1
  · rw [if_neg h1]
    by_cases h2 : getDisplayWidth g < w
    · rw [if_pos h2]
      rw [graphemeWidthSum_append, graphemeWidthSum_replicate_space, ← hgd]
      omega
    · rw [if_neg h2]
      simp [graphemeWidthSum_append, graphemeWidthSum_replicate_space, getDisplayWidth_nil,
        show graphemeWidthSum [] = 0 from rfl]

/-- An over-wide glyph is replaced by blank padding of the cell width. -/
theorem fitToWidth_overflow (g : Str) (w : Nat) (h : w < getDisplayWidth g) :
    fitToWidth g w = List.replicate w ' ' := by
  unfold fitToWidth padToWidth
  rw [if_neg (by simp; omega), if_neg (by omega)]
  simp [getDisplayWidth_nil]

/-- A narrower glyph is padded with spaces up to the cell width. -/
theorem fitToWidth_pad (g : Str) (w : Nat) (h : getDisplayWidth g < w) :
    fitToWidth g w = g ++ List.replicate (w - getDisplayWidth g) ' ' := by
  unfold fitToWidth padToWidth
  rw [if_neg (by simp; omega), if_pos h]

/-- A successful inner render loop yields one glyph per column. -/
theorem renderRowGo_ok_length (trig : TrigModel) (bitmap : Bitmap) (config : RenderConfig)
    (height width row : Nat) :
    ∀ (cols : List Nat) (seed : Nat) (gs : List Str) (seed' : Nat),
      renderRowGo trig bitmap config height width row cols seed = .ok (gs, seed') →
      gs.length = cols.length := by
  intro cols
  induction cols with
  | nil =>
    intro seed gs seed' hh
    simp [renderRowGo] at hh
    simp [← hh.1]
  | cons c cs ih =>
    intro seed gs seed' hh
    cases hcell : renderCell trig bitmap config height width row c seed with
    | error e => rw [renderRowGo, hcell] at hh; cases hh
    | ok p =>
      obtain ⟨g, s1⟩ := p
      cases hrec : renderRowGo trig bitmap config height width row cs s1 with
      | error e =>
        rw [renderRowGo, hcell] at hh
        simp [hrec] at hh
      | ok q =>
        obtain ⟨rest, s2⟩ := q
        rw [renderRowGo, hcell] at hh
        simp [hrec] at hh
        rw [← hh.1]
        simp [ih s1 rest s2 hrec]

/-- A successful outer render loop yields rows of `width` glyphs each. -/
theorem renderRowsGo_ok_row_lengths (trig : TrigModel) (bitmap : Bitmap) (config : RenderConfig)
    (height width : Nat) :
    ∀ (rows : List Nat) (seed : Nat) (out : List (List Str)) (seed' : Nat),
      renderRowsGo trig bitmap config height width rows seed = .ok (out, seed') →
      ∀ r ∈ out, r.length = width := by
  intro rows
  induction rows with
  | nil =>
    intro seed out seed' hh
    simp [renderRowsGo] at hh
    obtain ⟨h1, h2⟩ := hh
    subst h1
    intro r hr
    cases hr
  | cons x xs ih =>
    intro seed out seed' hh
    cases hrow : renderRowGo trig bitmap config height width x (List.range width) seed with
    | error e => rw [renderRowsGo, hrow] at hh; cases hh
    | ok p =>
      obtain ⟨g, s1⟩ := p
      cases hrec : renderRowsGo trig bitmap config height width xs s1 with
      | error e =>
        rw [renderRowsGo, hrow] at hh
        simp [hrec] at hh
      | ok q =>
        obtain ⟨rest, s2⟩ := q
        rw [renderRowsGo, hrow] at hh
        simp [hrec] at hh
        intro r hr
        rw [← hh.1] at hr
        rcases List.mem_cons.mp hr with rfl | hmem
        · have := renderRowGo_ok_length trig bitmap config height width x (List.range width)
            seed r s1 hrow
          simpa using this
        · exact ih s1 rest s2 hrec r hmem

/-- A successful glyph grid has `bitmapWidth` glyphs in every row. -/
theorem glyphRows_ok_row_lengths (trig : TrigModel) (seed : Nat) (bitmap : Bitmap)
    (config : RenderConfig) (rows : List (List Str))
    (h : glyphRows trig seed bitmap config = .ok rows) :
    ∀ r ∈ rows, r.length = bitmapWidth bitmap := by
  unfold glyphRows at h
  cases hgo : renderRowsGo trig bitmap config bitmap.length (bitmapWidth bitmap)
      (List.range bitmap.length) seed with
  | error e => rw [hgo] at h; cases h
  | ok p =>
    rw [hgo] at h
    injection h with h'
    rw [← h']
    exact renderRowsGo_ok_row_lengths trig bitmap config bitmap.length (bitmapWidth bitmap)
      (List.range bitmap.length) seed p.1 p.2 (by rw [hgo])

/-- C2 (amended): width alignment.  Unconditionally, a cell glyph whose
display width exceeds the cell width is replaced by blank padding of
exactly the cell width, and a narrower glyph is padded with spaces by
exactly the missing width.  For the per-line total: provided no selected
glyph (foreground, palette, or background) is a custom-alias-shaped
token — for those `getDisplayWidth` reports 2 regardless of the
characters present, which breaks additivity — every line produced by the
render (`renderBitmap` = `renderLinesOf` over `glyphRows` at seed 42)
has total display width, summed per grapheme, exactly
`columns × cellWidth` with `cellWidth = max(widths of candidates, 2)`. -/
theorem claim2_width_alignment :
    (∀ (g : Str) (w : Nat), w < getDisplayWidth g → fitToWidth g w = List.replicate w ' ') ∧
    (∀ (g : Str) (w : Nat), getDisplayWidth g < w →
      fitToWidth g w = g ++ List.replicate (w - getDisplayWidth g) ' ') ∧
    (∀ (trig : TrigModel) (bitmap : Bitmap) (config : RenderConfig) (rows : List (List Str)),
      glyphRows trig 42 bitmap config = .ok rows →
      (∀ g ∈ rows.flatten, isLikelyCustomEmoji g = false) →
      ∀ line ∈ renderLinesOf config rows,
        graphemeWidthSum line = bitmapWidth bitmap * cellWidthOf config) := by
  refine ⟨fitToWidth_overflow, fitToWidth_pad, ?_⟩
  intro trig bitmap config rows hok hg line hline
  obtain ⟨row, hrow, rfl⟩ := List.mem_map.mp hline
  rw [graphemeWidthSum_flatten, List.map_map]
  have hcells : ∀ g ∈ row,
      (graphemeWidthSum ∘ fun g => fitToWidth g (cellWidthOf config)) g = cellWidthOf config :=
    fun g hgr =>
      fitToWidth_graphemeWidthSum g _ (hg g (List.mem_flatten.mpr ⟨row, hrow, hgr⟩))
  rw [List.map_congr_left hcells, List.map_const', List.sum_replicate, smul_eq_mul,
    glyphRows_ok_row_lengths trig 42 bitmap config rows hok row hrow, Nat.mul_comm]

/-- Witness for C2 at concrete inputs. -/
theorem claim2_witness :
    fitToWidth ['🔥', '🔥'] 1 = List.replicate 1 ' ' ∧
    ∀ line ∈ renderLinesOf ⟨[['🔥']], ['.'], .row, .defaultTheme⟩ [[['🔥']]],
      graphemeWidthSum line =
        bitmapWidth [[true]] * cellWidthOf ⟨[['🔥']], ['.'], .row, .defaultTheme⟩ := by
  constructor
  · exact claim2_width_alignment.1 ['🔥', '🔥'] 1 (by decide)
  · exact claim2_width_alignment.2.2 trigZero [[true]] ⟨[['🔥']], ['.'], .row, .defaultTheme⟩
      [[['🔥']]] (by decide) (by decide)

/-- C2 counterexample to the claim as stated: with the alias-shaped
foreground candidate `fire` (display width 2 by the custom-alias rule)
and a two-column bitmap, the produced line is the eight characters
`firefire`, whose total display width is 8 per grapheme (and 2 by the
code's own `getDisplayWidth`), not `columns × cellWidth = 4`. -/
theorem claim2_alias_counterexample :
    renderBitmap trigZero [[true, true]] cexConfig =
      .ok { text := ['f', 'i', 'r', 'e', 'f', 'i', 'r', 'e']
            backgroundEmoji := ['.']
            bitmap := [[true, true]]
            width := 2
            height := 1 } ∧
    graphemeWidthSum ['f', 'i', 'r', 'e', 'f', 'i', 'r', 'e'] ≠
      bitmapWidth [[true, true]] * cellWidthOf cexConfig ∧
    getDisplayWidth ['f', 'i', 'r', 'e', 'f', 'i', 'r', 'e'] ≠
      bitmapWidth [[true, true]] * cellWidthOf cexConfig := by
  refine ⟨?_, by decide, by decide⟩
  decide

end EmojiBanner
